import Mathlib

/-!
# MediScan core subsystems: a shallow embedding

This file embeds, in Lean, the two core subsystems of the MediScan
repository and settles the frozen specification claims about them:

* the encrypted record store (`src/services` storage module): the
  XOR cipher over JavaScript UTF-16 strings, `JSON.stringify` /
  `JSON.parse`, key lifecycle (`getEncryptionKey`), and the
  medication CRUD operations (`addMedication`, `updateMedication`,
  `clearAllData`);
* the resilient API client (`ApiService`): the request interceptor
  (`handleRequest`) and the single-flight token-refresh protocol of
  `handleResponseError`, modelled as a small-step state machine over
  logically concurrent 401 handlers on a cooperative scheduler.

JavaScript strings are modelled as lists of UTF-16 code units
(`List Nat`); `Array.from(str)` iteration is modelled by code-point
grouping including surrogate-pair handling, since that is where the
source cipher's behaviour on non-ASCII text is decided.
-/

/-! ## JavaScript string model: UTF-16 code units -/

/-- UTF-16 encoding of a Lean string: code points below `0x10000` become
one unit, astral code points become a surrogate pair. This converts
concrete Lean string literals into the JS string model. -/
def utf16 (s : String) : List Nat :=
  s.data.flatMap fun c =>
    let n := c.toNat
    if n < 0x10000 then [n]
    else [0xD800 + (n - 0x10000) / 0x400, 0xDC00 + (n - 0x10000) % 0x400]

/-- Decimal digits of a natural number as UTF-16 units (the JS rendering
of a number inside a template literal). -/
def decUnits (n : Nat) : List Nat :=
  (Nat.toDigits 10 n).map Char.toNat

/-- High surrogate range `0xD800`–`0xDBFF`. -/
def isHighSurrogate (c : Nat) : Bool := 0xD800 ≤ c && c ≤ 0xDBFF

/-- Low surrogate range `0xDC00`–`0xDFFF`. -/
def isLowSurrogate (c : Nat) : Bool := 0xDC00 ≤ c && c ≤ 0xDFFF

/-- `Array.from(str)` / string iteration in JS: groups the UTF-16 units
of a string into its iterator elements. A high surrogate followed by a
low surrogate forms one two-unit element (an astral code point); every
other unit, lone surrogates included, is an element by itself. -/
def strIter : List Nat → List (List Nat)
  | [] => []
  | [c] => [[c]]
  | c :: c2 :: rest2 =>
    if isHighSurrogate c && isLowSurrogate c2 then [c, c2] :: strIter rest2
    else [c] :: strIter (c2 :: rest2)

/-! ## Record data model (`src/types/index.ts`)

`Medication` from `src/types/index.ts`: `id?`, `name`, `dosage?`,
`frequency?`, `datePrescribed`, `prescribedBy?`, `notes?`, all strings
(optional fields as `Option`). String fields use the UTF-16 unit model. -/

structure Medication where
  id : Option (List Nat)
  name : List Nat
  dosage : Option (List Nat)
  frequency : Option (List Nat)
  datePrescribed : List Nat
  prescribedBy : Option (List Nat)
  notes : Option (List Nat)
deriving DecidableEq, Repr

/-- JS falsiness of an optional string value: `undefined` (here `none`)
and the empty string are falsy; every other string is truthy. Used for
the `!medication.id` and `medication.id || ...` checks in the source. -/
def jsFalsy : Option (List Nat) → Bool
  | none => true
  | some s => s.isEmpty

/-! ## Medication CRUD (storage module, `addMedication` / `updateMedication`)

The persisted collection is modelled by the decoded record list it
holds (the cipher/persistence layer is modelled separately below); each
operation returns its result together with the persisted collection
after the call, so that "the persisted collection is unchanged" is
directly expressible. -/

/-- The generated id `` `med_${Date.now()}` ``; `Date.now()` is passed in
as the `now` parameter. -/
def genMedId (now : Nat) : List Nat :=
  utf16 "med_" ++ decUnits now

/-- `addMedication` from the storage module: loads the collection,
builds `{...medication, id: medication.id || genMedId now}`, appends it,
persists, and returns the stored record. -/
def addMedication (now : Nat) (medication : Medication) (stored : List Medication) :
    Medication × List Medication :=
  let newMedication : Medication :=
    { medication with
      id := if jsFalsy medication.id then some (genMedId now) else medication.id }
  (newMedication, stored ++ [newMedication])

/-- Errors surfaced by the medication store operations; the source
throws `Error('Medication ID is required for updates')` (MissingId) and
`` Error(`Medication with ID ${id} not found`) `` (NotFound). -/
inductive StoreErr where
  | missingId
  | notFound
deriving DecidableEq, Repr

/-- `updateMedication` from the storage module: rejects a falsy id with
MissingId, locates the record by `findIndex(m => m.id === medication.id)`,
rejects a missing id with NotFound, otherwise overwrites the element at
the found index and persists. The second component is the persisted
collection after the call (unchanged when an error is thrown, since
`saveData` is only reached on the success path). -/
def updateMedication (medication : Medication) (stored : List Medication) :
    Except StoreErr Medication × List Medication :=
  if jsFalsy medication.id then (.error .missingId, stored)
  else
    match stored.findIdx? (fun m => m.id == medication.id) with
    | none => (.error .notFound, stored)
    | some index => (.ok medication, stored.set index medication)

/-! ## Secure vault model and `clearAllData` -/

/-- The secure vault (Expo SecureStore): an association list from storage
keys to stored string values. -/
abbrev Vault := List (String × List Nat)

/-- `SecureStore.getItemAsync`. -/
def vaultGet (v : Vault) (key : String) : Option (List Nat) :=
  (v.find? (fun p => p.1 == key)).map (·.2)

/-- `SecureStore.deleteItemAsync`. -/
def vaultDelete (v : Vault) (key : String) : Vault :=
  v.filter (fun p => !(p.1 == key))

/-- `Object.values(STORAGE_KEYS)` from the storage module. -/
def STORAGE_KEYS : List String :=
  ["mediscan_medications", "mediscan_diagnoses", "mediscan_symptoms",
   "mediscan_medical_history", "mediscan_user_profile", "mediscan_encryption_key"]

/-- `clearAllData`: deletes every storage key via
`Promise.all(keys.map(key => SecureStore.deleteItemAsync(key)))`; the
deletions all run (a rejection of one does not cancel the others), and
if any deletion fails the `catch` block throws the fixed message
`Error('Failed to clear all data')`. `failsOn` says which individual
deletions fail (the vault boundary's behaviour); the first component is
what the caller observes, the second the vault afterwards. -/
def clearAllData (failsOn : String → Bool) (v : Vault) : Except String Unit × Vault :=
  let v' := STORAGE_KEYS.foldl (fun acc key => if failsOn key then acc else vaultDelete acc key) v
  (if STORAGE_KEYS.any failsOn then .error "Failed to clear all data" else .ok (), v')

/-! ## API client request interceptor (`ApiService.handleRequest`) -/

/-- Request configuration: the headers the interceptor may extend. -/
abbrev Headers := List (String × String)

/-- `ApiService.handleRequest`: first queries connectivity
(`NetInfo.fetch`) and throws `Error('No internet connection')` when
unreachable; only then reads the auth token from the vault and, when
present, attaches the bearer header. (The subsequent
`validateCertificatePinning` call only logs and does not alter the
config.) -/
def handleRequest (isConnected : Bool) (vaultToken : Option String) (headers : Headers) :
    Except String Headers :=
  if !isConnected then .error "No internet connection"
  else
    match vaultToken with
    | some token => .ok (headers ++ [("Authorization", "Bearer " ++ token)])
    | none => .ok headers

/-- One request through the client pipeline: the axios request
interceptor runs first; only if it succeeds is the transport `send`
invoked. The boolean records whether the transport boundary was
invoked for this request. -/
def requestPipeline (isConnected : Bool) (vaultToken : Option String) (headers : Headers)
    (send : Headers → Except String String) : Except String String × Bool :=
  match handleRequest isConnected vaultToken headers with
  | .error e => (.error e, false)
  | .ok config => (send config, true)

/-! ## Key Manager (`generateEncryptionKey` / `getEncryptionKey`)

The encryption key lives in the vault under `mediscan_encryption_key`;
for the key-lifecycle claims the vault is modelled by that single slot
(`Option (List Nat)`). -/

/-- Lowercase hex digit as a UTF-16 unit (`b.toString(16)`). -/
def hexDigitUnit (n : Nat) : Nat :=
  if n < 10 then 0x30 + n else 0x61 + (n - 10)

/-- `b.toString(16).padStart(2, '0')` for a byte `b < 256`. -/
def byteHexUnits (b : Nat) : List Nat :=
  [hexDigitUnit (b / 16), hexDigitUnit (b % 16)]

/-- `generateEncryptionKey`: hex-encodes the 32 bytes drawn from
`Crypto.getRandomBytesAsync(32)`; the random bytes are the
`randomBytes` parameter. -/
def generateEncryptionKey (randomBytes : List Nat) : List Nat :=
  randomBytes.flatMap byteHexUnits

/-- `getEncryptionKey`, sequential behaviour: reads the key slot; when
the stored value is falsy (`!key`: absent or the empty string) it
generates a key, persists it and returns it, otherwise it returns the
stored key unchanged. Returns the key together with the vault slot
after the call. -/
def getEncryptionKey (randomBytes : List Nat) (vault : Option (List Nat)) :
    List Nat × Option (List Nat) :=
  match vault with
  | some k => if k.isEmpty then
      let g := generateEncryptionKey randomBytes
      (g, some g)
    else (k, some k)
  | none =>
      let g := generateEncryptionKey randomBytes
      (g, some g)

/-! ### Concurrent first calls to `getEncryptionKey`

`getEncryptionKey` suspends at each vault / crypto `await`; two
logically concurrent calls interleave at those suspension points. Each
call is a process with one atomic step per await:
read the slot, draw the random bytes, write the generated key. -/

/-- Phase of one in-flight `getEncryptionKey` call. -/
inductive KPhase where
  /-- About to `await SecureStore.getItemAsync`. -/
  | start
  /-- Read a falsy slot; about to `await Crypto.getRandomBytesAsync`. -/
  | gotNone
  /-- Generated `k`; about to `await SecureStore.setItemAsync`. -/
  | generated (k : List Nat)
  /-- Returned `k`. -/
  | done (k : List Nat)
deriving DecidableEq, Repr

/-- One atomic step of a `getEncryptionKey` call whose random draw is
`randomBytes`, against the key slot; a `done` process does not move. -/
def kStep (randomBytes : List Nat) : KPhase → Option (List Nat) → KPhase × Option (List Nat)
  | .start, v =>
    (match v with
     | some k => if k.isEmpty then .gotNone else .done k
     | none => .gotNone, v)
  | .gotNone, v => (.generated (generateEncryptionKey randomBytes), v)
  | .generated k, _ => (.done k, some k)
  | .done k, v => (.done k, v)

/-- Two concurrent `getEncryptionKey` calls and the key slot. -/
structure KSys where
  p1 : KPhase
  p2 : KPhase
  slot : Option (List Nat)
deriving DecidableEq, Repr

/-- Run the two concurrent calls under a schedule: `true` steps the
first call, `false` the second. -/
def kRun (r1 r2 : List Nat) : List Bool → KSys → KSys
  | [], s => s
  | true :: rest, s =>
    let (p, v) := kStep r1 s.p1 s.slot
    kRun r1 r2 rest { s with p1 := p, slot := v }
  | false :: rest, s =>
    let (p, v) := kStep r2 s.p2 s.slot
    kRun r1 r2 rest { s with p2 := p, slot := v }

/-- Both concurrent calls start at their first await, with no key
persisted yet. -/
def kInit : KSys := ⟨.start, .start, none⟩

/-- A call that has returned. -/
def KPhase.isDone : KPhase → Bool
  | .done _ => true
  | _ => false

/-! ## The XOR cipher (`encryptData` / `decryptData`)

The source iterates the JSON string with `Array.from` (code points),
XORs `char.charCodeAt(0)` — the FIRST UTF-16 unit of the element —
with `key[index % key.length].charCodeAt(0)`, and rebuilds the string
with `String.fromCharCode`, one unit per element. -/

/-- `key[index % key.length].charCodeAt(0)`: unit-level indexing into
the key string. -/
def keyUnit (key : List Nat) (index : Nat) : Nat :=
  key.getD (index % key.length) 0

/-- The `Array.from(s).map((char, index) => String.fromCharCode(
char.charCodeAt(0) ^ key[index % key.length].charCodeAt(0))).join('')`
body shared by `encryptData` and `decryptData`. Note that only the
first unit of each iterator element survives. -/
def xorWithKey (key : List Nat) (s : List Nat) : List Nat :=
  (strIter s).mapIdx fun index chunk => Nat.xor (chunk.headD 0) (keyUnit key index)

/-! ## JSON model (`JSON.stringify` / `JSON.parse`)

The serializer and parser below model the standard JavaScript
`JSON.stringify` (default arguments: no whitespace, properties in
insertion order, `undefined`-valued properties omitted) and
`JSON.parse` over the UTF-16 unit model. Strings admit every unit
except `"`,`\` and controls, with the standard escapes — lone
surrogates are accepted, as `JSON.parse` accepts them. -/

/-- A JSON value. Object fields are kept in order; numbers keep their
raw token (no record field of the store is numeric, so numeric
semantics never matter here). -/
inductive Json where
  | str (s : List Nat)
  | num (raw : List Nat)
  | bool (b : Bool)
  | null
  | arr (elems : List Json)
  | obj (fields : List (List Nat × Json))

/-- `JSON.stringify` escaping of one string unit. -/
def escapeUnit (c : Nat) : List Nat :=
  if c = 0x22 then [0x5C, 0x22]
  else if c = 0x5C then [0x5C, 0x5C]
  else if c = 0x08 then [0x5C, 0x62]
  else if c = 0x09 then [0x5C, 0x74]
  else if c = 0x0A then [0x5C, 0x6E]
  else if c = 0x0C then [0x5C, 0x66]
  else if c = 0x0D then [0x5C, 0x72]
  else if c < 0x20 then [0x5C, 0x75, 0x30, 0x30, hexDigitUnit (c / 16), hexDigitUnit (c % 16)]
  else [c]

/-- A JSON string literal: quotes around the escaped units. -/
def quoteUnits (s : List Nat) : List Nat :=
  0x22 :: s.flatMap escapeUnit ++ [0x22]

mutual

/-- `JSON.stringify` with default arguments. -/
def jsonStringify : Json → List Nat
  | .str s => quoteUnits s
  | .num raw => raw
  | .bool true => utf16 "true"
  | .bool false => utf16 "false"
  | .null => utf16 "null"
  | .arr elems => 0x5B :: stringifyElems elems ++ [0x5D]
  | .obj fields => 0x7B :: stringifyFields fields ++ [0x7D]

/-- Comma-separated array elements. -/
def stringifyElems : List Json → List Nat
  | [] => []
  | [x] => jsonStringify x
  | x :: y :: rest => jsonStringify x ++ 0x2C :: stringifyElems (y :: rest)

/-- Comma-separated `"key":value` object members. -/
def stringifyFields : List (List Nat × Json) → List Nat
  | [] => []
  | [(k, v)] => quoteUnits k ++ 0x3A :: jsonStringify v
  | (k, v) :: f :: rest => quoteUnits k ++ 0x3A :: jsonStringify v ++ 0x2C :: stringifyFields (f :: rest)

end

/-- JSON whitespace. -/
def isJsonWs (c : Nat) : Bool := c = 0x20 || c = 0x09 || c = 0x0A || c = 0x0D

/-- Skip leading JSON whitespace. -/
def skipWs : List Nat → List Nat
  | [] => []
  | c :: rest => if isJsonWs c then skipWs rest else c :: rest

/-- Value of a hex digit unit, if it is one. -/
def hexVal (c : Nat) : Option Nat :=
  if 0x30 ≤ c && c ≤ 0x39 then some (c - 0x30)
  else if 0x41 ≤ c && c ≤ 0x46 then some (c - 0x41 + 10)
  else if 0x61 ≤ c && c ≤ 0x66 then some (c - 0x61 + 10)
  else none

/-- Parse the body of a JSON string literal after the opening quote:
returns the decoded units and the remaining input after the closing
quote. Any unit that is not `"`, `\\` or a control is accepted verbatim
(lone surrogates included, as in `JSON.parse`); the fuel (one per
consumed unit suffices) keeps the recursion structural. -/
def parseStringGo : Nat → List Nat → Option (List Nat × List Nat)
  | 0, _ => none
  | _ + 1, [] => none
  | fuel + 1, c :: rest =>
    if c = 0x22 then some ([], rest)
    else if c = 0x5C then
      match rest with
      | [] => none
      | e :: rest2 =>
        if e = 0x22 then (parseStringGo fuel rest2).map fun (u, r) => (0x22 :: u, r)
        else if e = 0x5C then (parseStringGo fuel rest2).map fun (u, r) => (0x5C :: u, r)
        else if e = 0x2F then (parseStringGo fuel rest2).map fun (u, r) => (0x2F :: u, r)
        else if e = 0x62 then (parseStringGo fuel rest2).map fun (u, r) => (0x08 :: u, r)
        else if e = 0x66 then (parseStringGo fuel rest2).map fun (u, r) => (0x0C :: u, r)
        else if e = 0x6E then (parseStringGo fuel rest2).map fun (u, r) => (0x0A :: u, r)
        else if e = 0x72 then (parseStringGo fuel rest2).map fun (u, r) => (0x0D :: u, r)
        else if e = 0x74 then (parseStringGo fuel rest2).map fun (u, r) => (0x09 :: u, r)
        else if e = 0x75 then
          match rest2 with
          | h1 :: h2 :: h3 :: h4 :: rest3 =>
            match hexVal h1, hexVal h2, hexVal h3, hexVal h4 with
            | some d1, some d2, some d3, some d4 =>
              (parseStringGo fuel rest3).map fun (u, r) =>
                ((((d1 * 16 + d2) * 16 + d3) * 16 + d4) :: u, r)
            | _, _, _, _ => none
          | _ => none
        else none
    else if c < 0x20 then none
    else (parseStringGo fuel rest).map fun (u, r) => (c :: u, r)

/-- The string-literal body parser with enough fuel for its input. -/
def parseStringBody (s : List Nat) : Option (List Nat × List Nat) :=
  parseStringGo (s.length + 1) s

/-- ASCII decimal digit. -/
def isDigitUnit (c : Nat) : Bool := 0x30 ≤ c && c ≤ 0x39

/-- Consume a maximal run of decimal digits. -/
def takeDigits : List Nat → List Nat × List Nat
  | [] => ([], [])
  | c :: rest =>
    if isDigitUnit c then
      let (ds, r) := takeDigits rest
      (c :: ds, r)
    else ([], c :: rest)

/-- Parse a JSON number token (`-? int frac? exp?`), returning its raw
units and the remaining input. -/
def parseNumber (s : List Nat) : Option (List Nat × List Nat) := do
  let (neg, s1) := match s with
    | 0x2D :: rest => ([0x2D], rest)
    | _ => ([], s)
  let (intPart, s2) ← match s1 with
    | 0x30 :: rest => some ([0x30], rest)
    | c :: _ =>
      if isDigitUnit c then
        let (ds, r) := takeDigits s1
        some (ds, r)
      else none
    | [] => none
  let (fracPart, s3) ← match s2 with
    | 0x2E :: rest =>
      let (ds, r) := takeDigits rest
      if ds.isEmpty then none else some (0x2E :: ds, r)
    | _ => some ([], s2)
  let (expPart, s4) ← match s3 with
    | e :: rest =>
      if e = 0x65 || e = 0x45 then
        let (sign, rest2) := match rest with
          | 0x2B :: r => ([0x2B], r)
          | 0x2D :: r => ([0x2D], r)
          | _ => ([], rest)
        let (ds, r) := takeDigits rest2
        if ds.isEmpty then none else some (e :: sign ++ ds, r)
      else some ([], s3)
    | [] => some ([], [])
  pure (neg ++ intPart ++ fracPart ++ expPart, s4)

/-- What the recursive-descent parser is currently parsing: one value,
the remaining elements of an array, or the remaining members of an
object (with the elements/members already parsed). -/
inductive PMode where
  | val
  | elems (acc : List Json)
  | members (acc : List (List Nat × Json))

/-- The recursive descent of `JSON.parse`, all modes in one function so
that the recursion is structural in the fuel (which only bounds the
descent; `jsonParse` supplies enough for any input). -/
def parseGo : Nat → PMode → List Nat → Option (Json × List Nat)
  | 0, _, _ => none
  | fuel + 1, .val, s =>
    (match skipWs s with
     | [] => none
     | c :: rest =>
       if c = 0x22 then (parseStringBody rest).map fun (u, r) => (.str u, r)
       else if c = 0x5B then
         match skipWs rest with
         | 0x5D :: r2 => some (.arr [], r2)
         | r2 => parseGo fuel (.elems []) r2
       else if c = 0x7B then
         match skipWs rest with
         | 0x7D :: r2 => some (.obj [], r2)
         | r2 => parseGo fuel (.members []) r2
       else if c = 0x74 then
         match rest with
         | 0x72 :: 0x75 :: 0x65 :: r2 => some (.bool true, r2)
         | _ => none
       else if c = 0x66 then
         match rest with
         | 0x61 :: 0x6C :: 0x73 :: 0x65 :: r2 => some (.bool false, r2)
         | _ => none
       else if c = 0x6E then
         match rest with
         | 0x75 :: 0x6C :: 0x6C :: r2 => some (.null, r2)
         | _ => none
       else if c = 0x2D || isDigitUnit c then
         (parseNumber (c :: rest)).map fun (raw, r) => (.num raw, r)
       else none)
  | fuel + 1, .elems acc, s =>
    (match parseGo fuel .val s with
     | none => none
     | some (v, r) =>
       match skipWs r with
       | 0x2C :: r2 => parseGo fuel (.elems (acc ++ [v])) r2
       | 0x5D :: r2 => some (.arr (acc ++ [v]), r2)
       | _ => none)
  | fuel + 1, .members acc, s =>
    (match skipWs s with
     | 0x22 :: rest =>
       match parseStringBody rest with
       | none => none
       | some (k, r) =>
         match skipWs r with
         | 0x3A :: r2 =>
           (match parseGo fuel .val r2 with
            | none => none
            | some (v, r3) =>
              match skipWs r3 with
              | 0x2C :: r4 => parseGo fuel (.members (acc ++ [(k, v)])) r4
              | 0x7D :: r4 => some (.obj (acc ++ [(k, v)]), r4)
              | _ => none)
         | _ => none
     | _ => none)

/-- `JSON.parse`: parse one value and require only whitespace after it. -/
def jsonParse (s : List Nat) : Option Json :=
  match parseGo (2 * s.length + 2) .val s with
  | some (v, rest) => if skipWs rest = [] then some v else none
  | none => none

/-! ## Record (de)serialization and the persistence pipeline -/

/-- Serialize one medication the way `JSON.stringify` renders the stored
object `{...medication, id}`: properties in the interface order with
`id` first, properties whose value is `undefined` omitted. -/
def medToJson (m : Medication) : Json :=
  .obj <|
    (match m.id with | some s => [(utf16 "id", Json.str s)] | none => []) ++
    [(utf16 "name", Json.str m.name)] ++
    (match m.dosage with | some s => [(utf16 "dosage", Json.str s)] | none => []) ++
    (match m.frequency with | some s => [(utf16 "frequency", Json.str s)] | none => []) ++
    [(utf16 "datePrescribed", Json.str m.datePrescribed)] ++
    (match m.prescribedBy with | some s => [(utf16 "prescribedBy", Json.str s)] | none => []) ++
    (match m.notes with | some s => [(utf16 "notes", Json.str s)] | none => [])

/-- A medication collection as the JSON array `JSON.stringify` receives. -/
def medListToJson (ms : List Medication) : Json :=
  .arr (ms.map medToJson)

/-- Look up an object field by key (first occurrence, as property access
on the parsed object observes for distinct keys). -/
def jsonField (fields : List (List Nat × Json)) (key : List Nat) : Option Json :=
  (fields.find? fun p => p.1 == key).map (·.2)

/-- Read back one medication from a parsed JSON value, as the caller of
`loadData<Medication>` observes its fields: required fields must be
strings, optional fields are `undefined` when absent. -/
def medOfJson : Json → Option Medication
  | .obj fields => do
    let getStr : Option Json → Option (List Nat) := fun j =>
      match j with
      | some (.str s) => some s
      | _ => none
    let getOptStr : Option Json → Option (Option (List Nat)) := fun j =>
      match j with
      | some (.str s) => some (some s)
      | none => some none
      | _ => none
    let id ← getOptStr (jsonField fields (utf16 "id"))
    let name ← getStr (jsonField fields (utf16 "name"))
    let dosage ← getOptStr (jsonField fields (utf16 "dosage"))
    let frequency ← getOptStr (jsonField fields (utf16 "frequency"))
    let datePrescribed ← getStr (jsonField fields (utf16 "datePrescribed"))
    let prescribedBy ← getOptStr (jsonField fields (utf16 "prescribedBy"))
    let notes ← getOptStr (jsonField fields (utf16 "notes"))
    pure ⟨id, name, dosage, frequency, datePrescribed, prescribedBy, notes⟩
  | _ => none

/-- Read back a medication collection from a parsed JSON value. -/
def medsOfJson : Json → Option (List Medication)
  | .arr elems => elems.mapM medOfJson
  | _ => none

/-- `encryptData` for a fixed key read from the vault:
`JSON.stringify` then the XOR mask. -/
def encryptData (key : List Nat) (data : Json) : List Nat :=
  xorWithKey key (jsonStringify data)

/-- `decryptData` for a fixed key: the XOR mask then `JSON.parse`;
`none` is the thrown `Error('Failed to decrypt data')`
(DecryptionFailed). -/
def decryptData (key : List Nat) (encryptedData : List Nat) : Option Json :=
  jsonParse (xorWithKey key encryptedData)

/-- `loadData<Medication>` on a present blob, read at the record level:
decrypt, parse, and view the result as a medication collection; `none`
is a caller-visible failure. -/
def loadMeds (key : List Nat) (blob : List Nat) : Option (List Medication) :=
  (decryptData key blob).bind medsOfJson

/-- `saveData` then `loadData` for one collection: the record-level
round trip `decryptData(encryptData(R))` of the spec. -/
def roundTripMeds (key : List Nat) (ms : List Medication) : Option (List Medication) :=
  loadMeds key (encryptData key (medListToJson ms))

/-- `encryptData` as called in `saveData`: the key is fetched with
`getEncryptionKey` (creating it if absent) and the collection is
stringified and masked. Returns the blob and the key slot afterwards. -/
def encryptMedsFull (randomBytes : List Nat) (keySlot : Option (List Nat))
    (ms : List Medication) : List Nat × Option (List Nat) :=
  let (key, slot) := getEncryptionKey randomBytes keySlot
  (encryptData key (medListToJson ms), slot)

/-! ## Single-flight token refresh (`ApiService.handleResponseError`)

`handleResponseError` runs on a cooperative single-threaded scheduler;
each 401 handler executes atomically between awaits. Its synchronous
prologue checks `this.isRefreshing`: the first handler claims the
refresh (sets the flag, invokes `refreshAuthToken()`, stores the shared
promise), every later handler awaits the same shared promise. When the
shared refresh settles, each suspended handler resumes: on success it
retries its original request once with the new token (the claimer also
runs `onTokenRefreshed` — the subscriber list is never populated
elsewhere — and its `finally` resets the flag and the promise); on
failure the claimer awaits `logout()` (deleting the stored auth token)
and rejects, and every waiter rejects with the same refresh error,
without retrying. -/

/-- The client's shared refresh-coordination state and auth-token slot. -/
structure RefreshClient where
  /-- `this.isRefreshing`. -/
  isRefreshing : Bool
  /-- `this.tokenRefreshPromise !== null`. -/
  pending : Bool
  /-- Number of invocations of `refreshAuthToken` (the remote refresh
  boundary). -/
  refreshCalls : Nat
  /-- The `mediscan_auth_token` vault slot. -/
  vaultToken : Option String
deriving DecidableEq, Repr

instance {ε α : Type} [DecidableEq ε] [DecidableEq α] : DecidableEq (Except ε α) := fun
  | .ok a, .ok b =>
    if h : a = b then .isTrue (by rw [h]) else .isFalse (by intro hh; cases hh; exact h rfl)
  | .ok _, .error _ => .isFalse (by intro h; cases h)
  | .error _, .ok _ => .isFalse (by intro h; cases h)
  | .error e, .error f =>
    if h : e = f then .isTrue (by rw [h]) else .isFalse (by intro hh; cases hh; exact h rfl)

/-- Phase of one 401 handler. `done result retries` records the value
propagated to the request's caller and how many times the original
request was retried. -/
inductive HPhase where
  /-- The 401 response is delivered; the handler has not run yet. -/
  | pending401
  /-- Claimed the refresh; suspended on its own `tokenRefreshPromise`. -/
  | claimerAwait
  /-- Found a refresh in progress; suspended on the shared promise. -/
  | waiterAwait
  /-- Returned to the caller. -/
  | done (result : Except String String) (retries : Nat)
deriving DecidableEq, Repr

/-- A handler that has returned to its caller. -/
def HPhase.isDone : HPhase → Bool
  | .done _ _ => true
  | _ => false

/-- The client plus `n` logically concurrent 401 handlers plus whether
the in-flight refresh has settled (and with which outcome). -/
structure RSys where
  client : RefreshClient
  /-- `none` while the refresh promise is unsettled. -/
  settled : Option (Except String String)
  phases : List HPhase
deriving DecidableEq, Repr

/-- Scheduler events: run handler `i`'s synchronous prologue, settle the
in-flight refresh with the scenario's outcome, or resume suspended
handler `i` after the promise settled. -/
inductive REvent where
  | handle (i : Nat)
  | settle
  | resume (i : Nat)
deriving DecidableEq, Repr

/-- `handle` event. -/
def REvent.isHandle : REvent → Bool
  | .handle _ => true
  | _ => false

/-- `resume` event. -/
def REvent.isResume : REvent → Bool
  | .resume _ => true
  | _ => false

/-- One atomic step; `none` when the event is not enabled in `s`
(the handler is not at that suspension point, or the promise has
already settled / not yet settled). `outcome` is the result of the
remote refresh boundary; on success `refreshAuthToken` stores the new
token in the vault before resolving. -/
def rStep (outcome : Except String String) (s : RSys) : REvent → Option RSys
  | .handle i =>
    match s.phases[i]? with
    | some .pending401 =>
      if s.client.isRefreshing then
        some { s with phases := s.phases.set i .waiterAwait }
      else
        some { s with
          client := { s.client with
            isRefreshing := true, pending := true,
            refreshCalls := s.client.refreshCalls + 1 },
          phases := s.phases.set i .claimerAwait }
    | _ => none
  | .settle =>
    if s.client.pending && s.settled.isNone then
      match outcome with
      | .ok tok => some { s with
          settled := some (.ok tok),
          client := { s.client with vaultToken := some tok } }
      | .error e => some { s with settled := some (.error e) }
    else none
  | .resume i =>
    match s.phases[i]?, s.settled with
    | some .claimerAwait, some (.ok tok) =>
      some { s with
        phases := s.phases.set i (.done (.ok tok) 1),
        client := { s.client with isRefreshing := false, pending := false } }
    | some .claimerAwait, some (.error e) =>
      some { s with
        phases := s.phases.set i (.done (.error e) 0),
        client := { s.client with
          isRefreshing := false, pending := false, vaultToken := none } }
    | some .waiterAwait, some (.ok tok) =>
      some { s with phases := s.phases.set i (.done (.ok tok) 1) }
    | some .waiterAwait, some (.error e) =>
      some { s with phases := s.phases.set i (.done (.error e) 0) }
    | _, _ => none

/-- Run a sequence of scheduler events; fails when any event is not
enabled. -/
def rRun (outcome : Except String String) : RSys → List REvent → Option RSys
  | s, [] => some s
  | s, e :: rest => (rStep outcome s e).bind fun s' => rRun outcome s' rest

/-- `n` requests have each received a 401 while no refresh is in
progress; the client starts idle with some stored token `v0`. -/
def rInit (n : Nat) (v0 : Option String) : RSys :=
  ⟨⟨false, false, 0, v0⟩, none, List.replicate n .pending401⟩

/-- Invariant during the prologue phase (before the refresh settles):
the vault is untouched, the promise exists exactly when the flag is
set, the refresh boundary has been called exactly once when the flag is
set and never otherwise, the claimers are counted by `refreshCalls`,
and no handler has returned. -/
def RefreshHandleInv (v0 : Option String) (s : RSys) : Prop :=
  s.settled = none ∧
  s.client.vaultToken = v0 ∧
  s.client.pending = s.client.isRefreshing ∧
  s.client.refreshCalls = (if s.client.isRefreshing then 1 else 0) ∧
  s.phases.count .claimerAwait = s.client.refreshCalls ∧
  ∀ p ∈ s.phases, p = .pending401 ∨ p = .claimerAwait ∨ p = .waiterAwait

/-- Invariant after the refresh settled successfully with token `tok`:
the refresh boundary was called exactly once, the new token is stored,
and every handler that has returned did so successfully after exactly
one retry. -/
def RefreshOkInv (tok : String) (s : RSys) : Prop :=
  s.settled = some (.ok tok) ∧
  s.client.vaultToken = some tok ∧
  s.client.refreshCalls = 1 ∧
  ∀ p ∈ s.phases,
    p = .pending401 ∨ p = .claimerAwait ∨ p = .waiterAwait ∨ p = .done (.ok tok) 1

/-- Invariant after the refresh settled with error `e`: once the claimer
has resumed, the stored token is cleared; every handler that has
returned propagated the same error without retrying. -/
def RefreshErrInv (v0 : Option String) (e : String) (s : RSys) : Prop :=
  s.settled = some (.error e) ∧
  s.client.refreshCalls = 1 ∧
  ((s.phases.count .claimerAwait = 1 ∧ s.client.vaultToken = v0) ∨
   (s.phases.count .claimerAwait = 0 ∧ s.client.vaultToken = none)) ∧
  ∀ p ∈ s.phases,
    p = .pending401 ∨ p = .claimerAwait ∨ p = .waiterAwait ∨ p = .done (.error e) 0

/-! ## Concrete instances used by the counterexamples and witnesses -/

/-- The stored encryption key used in the cipher counterexamples: the
hex encoding of the 32 random bytes `0, 1, ..., 31`. -/
def c24_key : List Nat := generateEncryptionKey (List.range 32)

/-- A persisted medication whose notes are the ASCII text `AB`. -/
def c2_med : Medication :=
  { id := some (utf16 "med_1"), name := utf16 "A", dosage := none, frequency := none,
    datePrescribed := utf16 "d", prescribedBy := none, notes := some (utf16 "AB") }

/-- The encrypted blob persisted for the collection `[c2_med]`. -/
def c2_blob : List Nat := encryptData c24_key (medListToJson [c2_med])

/-- `c2_blob` with a single byte modified: unit 56 (the ciphertext byte
of the `A` in the notes) changes from `0x70` to `0x72`. -/
def c2_tampered : List Nat := c2_blob.set 56 0x72

/-- A medication whose notes are the single astral code point U+1F600
(a surrogate pair in UTF-16). -/
def c4_med : Medication :=
  { id := some (utf16 "med_1"), name := utf16 "n", dosage := none, frequency := none,
    datePrescribed := utf16 "d", prescribedBy := none, notes := some (utf16 "😀") }

/-- A medication without an id, as a caller passes it to `addMedication`. -/
def c6_med : Medication :=
  { id := none, name := utf16 "A", dosage := none, frequency := none,
    datePrescribed := utf16 "d", prescribedBy := none, notes := none }

/-- A vault holding a blob under every storage key. -/
def c9_vault : Vault := STORAGE_KEYS.map fun k => (k, [0x78])

/-- Invariant of the two concurrent `getEncryptionKey` calls: the key
slot only ever holds a nonempty key, generated keys are nonempty, and a
call only returns once the slot is populated. -/
def KInvFull (s : KSys) : Prop :=
  (∀ k, s.slot = some k → k ≠ []) ∧
  (∀ k, s.p1 = .generated k → k ≠ []) ∧
  (∀ k, s.p2 = .generated k → k ≠ []) ∧
  (s.p1.isDone = true → s.slot.isSome = true) ∧
  (s.p2.isDone = true → s.slot.isSome = true)

/-! ## Theorems -/

theorem findIdx?_some_lt {α : Type} {p : α → Bool} :
    ∀ {l : List α} {i : Nat}, List.findIdx? p l = some i → i < l.length := by
  intro l
  induction l with
  | nil => intro i h; simp [List.findIdx?] at h
  | cons x xs ih =>
    intro i h
    rw [List.findIdx?_cons] at h
    by_cases hp : p x = true
    · simp [hp] at h
      simp [List.length_cons]
      omega
    · simp [hp] at h
      obtain ⟨a, ha, hai⟩ := h
      have := ih ha
      simp [List.length_cons]
      omega

/-- C5: `update(record)` fails with MissingId when `record.id` is unset
(falsy), fails with NotFound when no stored record has that id, leaves
the persisted collection unchanged in both failure cases, and when a
record with the id exists it replaces exactly the element at its
existing position (same length, every other position untouched) and
returns the updated record. -/
theorem spec_C5 (m : Medication) (s : List Medication) :
    (jsFalsy m.id = true → updateMedication m s = (.error .missingId, s)) ∧
    (jsFalsy m.id = false → s.findIdx? (fun r => r.id == m.id) = none →
      updateMedication m s = (.error .notFound, s)) ∧
    (∀ i, jsFalsy m.id = false → s.findIdx? (fun r => r.id == m.id) = some i →
      updateMedication m s = (.ok m, s.set i m) ∧ i < s.length ∧
      (s.set i m).length = s.length ∧ (s.set i m)[i]? = some m ∧
      ∀ j, j ≠ i → (s.set i m)[j]? = s[j]?) := by
  refine ⟨fun h => by simp [updateMedication, h],
          fun h hf => by simp [updateMedication, h, hf],
          fun i h hf => ?_⟩
  have hlt : i < s.length := findIdx?_some_lt hf
  exact ⟨by simp [updateMedication, h, hf], hlt, List.length_set .., by
    rw [List.getElem?_set_self hlt],
    fun j hj => List.getElem?_set_ne (fun hh => hj hh.symm)⟩

theorem spec_C5_witness :
    updateMedication { c2_med with name := utf16 "B" } [c2_med]
      = (.ok { c2_med with name := utf16 "B" }, [{ c2_med with name := utf16 "B" }]) :=
  ((spec_C5 { c2_med with name := utf16 "B" } [c2_med]).2.2 0 (by decide) (by decide)).1

/-- C6, counterexample: the claim "the resulting collection never
contains two records with the same id" fails. Two `addMedication`
calls without ids within the same `Date.now()` millisecond (here both
at `now = 5`) both generate the id `med_5`, so the persisted
collection holds two records with equal ids. -/
theorem spec_C6_counterexample :
    ((addMedication 5 c6_med (addMedication 5 c6_med []).2).2.map Medication.id
      = [some (utf16 "med_5"), some (utf16 "med_5")]) ∧
    ¬ (addMedication 5 c6_med (addMedication 5 c6_med []).2).2.Pairwise
        (fun a b => a.id ≠ b.id) := by
  constructor
  · decide
  · decide

/-- C6, amended: `add(r)` stores `r` with the id `` `med_${Date.now()}` ``
assigned when `r.id` is falsy (the caller's id is kept otherwise),
appends the stored record at the end of the sequence — existing
elements and their order unchanged — and returns the stored record;
but id uniqueness of the resulting collection is NOT guaranteed (no
duplicate check, and the timestamp id generator can collide). -/
theorem spec_C6 (now : Nat) (m : Medication) (s : List Medication) :
    (addMedication now m s).2 = s ++ [(addMedication now m s).1] ∧
    (addMedication now m s).1 =
      { m with id := if jsFalsy m.id then some (genMedId now) else m.id } :=
  ⟨rfl, rfl⟩

/-- C8: a request issued while connectivity is unreachable fails with
the NoConnectivity error (`'No internet connection'`) thrown by the
request interceptor, and the transport boundary is never invoked for
it (the second component records transport invocation). -/
theorem spec_C8 (vaultToken : Option String) (headers : Headers)
    (send : Headers → Except String String) :
    requestPipeline false vaultToken headers send = (.error "No internet connection", false) :=
  rfl

/-- C10: encryption is deterministic. With a fixed stored key, the blob
produced by `saveData`'s `encryptData` depends only on the key and the
record collection (the random source `r` is only consumed when no key
is stored, never per encryption — there is no nonce), so two runs on
equal collections produce identical ciphertext and equal collections
always persist as equal blobs, making equality of stored data
observable from ciphertext. -/
theorem spec_C10 (key r1 r2 : List Nat) (ms1 ms2 : List Medication)
    (hkey : key ≠ []) (heq : ms1 = ms2) :
    (encryptMedsFull r1 (some key) ms1).1 = (encryptMedsFull r2 (some key) ms2).1 ∧
    (encryptMedsFull r1 (some key) ms1).2 = some key ∧
    (encryptMedsFull r1 (some key) ms1).1 = encryptData key (medListToJson ms1) := by
  subst heq
  have hk : key.isEmpty = false := by
    cases key with
    | nil => exact absurd rfl hkey
    | cons a l => rfl
  simp [encryptMedsFull, getEncryptionKey, hk]

theorem spec_C10_witness :
    (encryptMedsFull [0] (some (utf16 "k")) [c2_med]).1
      = (encryptMedsFull [1] (some (utf16 "k")) [c2_med]).1 :=
  (spec_C10 (utf16 "k") [0] [1] [c2_med] [c2_med] (by decide) rfl).1

/-- C2, code bug: the claim requires every single-byte modification of a
persisted blob to make the next `load()` fail with DecryptionFailed.
The XOR mask is not authenticated, so it cannot detect tampering: for
the persisted collection `[c2_med]` (notes `AB`), changing the single
byte at offset 56 of the blob from `0x70` to `0x72` (every blob unit is
one ASCII byte) makes `load()` SUCCEED and return a record sequence
whose notes read `CB` — a silently corrupted record, not a failure. -/
theorem spec_C2_bug :
    loadMeds c24_key c2_blob = some [c2_med] ∧
    c2_tampered = c2_blob.set 56 0x72 ∧
    c2_blob[56]? = some 0x70 ∧
    c2_blob.all (fun u => u < 0x80) = true ∧
    loadMeds c24_key c2_tampered = some [{ c2_med with notes := some (utf16 "CB") }] ∧
    [{ c2_med with notes := some (utf16 "CB") }] ≠ [c2_med] := by
  refine ⟨?_, rfl, by decide, by decide, ?_, by decide⟩
  · exact rfl
  · exact rfl

/-- C4, code bug: the claim requires `decryptData(encryptData(R)) == R`
for every record sequence, including non-ASCII unicode notes. The
cipher iterates code points but keeps only `charCodeAt(0)` — the first
UTF-16 unit — of each element, so an astral code point loses its low
surrogate: for notes `U+1F600` the round trip returns a record whose
notes are the lone high surrogate `0xD83D`, not the original record. -/
theorem spec_C4_bug :
    c4_med.notes = some [0xD83D, 0xDE00] ∧
    roundTripMeds c24_key [c4_med] = some [{ c4_med with notes := some [0xD83D] }] ∧
    roundTripMeds c24_key [c4_med] ≠ some [c4_med] := by
  refine ⟨by decide, ?_, ?_⟩
  · exact rfl
  · have h : roundTripMeds c24_key [c4_med] = some [{ c4_med with notes := some [0xD83D] }] :=
      rfl
    rw [h]
    decide

theorem vaultGet_delete_self (v : Vault) (k : String) : vaultGet (vaultDelete v k) k = none := by
  have h : List.find? (fun p => p.1 == k) (vaultDelete v k) = none := by
    rw [List.find?_eq_none]
    intro x hx
    have := (List.mem_filter.mp hx).2
    simpa using this
  simp [vaultGet, h]

theorem vaultGet_delete_none {v : Vault} {k : String}
    (h : vaultGet v k = none) (k' : String) : vaultGet (vaultDelete v k') k = none := by
  simp only [vaultGet, Option.map_eq_none'] at h ⊢
  rw [List.find?_eq_none] at h ⊢
  intro x hx
  exact h x (List.mem_filter.mp hx).1

theorem clearFold_preserves_none (failsOn : String → Bool) (k : String) :
    ∀ (keys : List String) (v : Vault), vaultGet v k = none →
      vaultGet (keys.foldl (fun acc key => if failsOn key then acc else vaultDelete acc key) v) k
        = none := by
  intro keys
  induction keys with
  | nil => intro v h; simpa using h
  | cons key rest ih =>
    intro v h
    rw [List.foldl_cons]
    by_cases hf : failsOn key = true
    · rw [if_pos hf]; exact ih v h
    · rw [if_neg hf]; exact ih _ (vaultGet_delete_none h key)

theorem clearFold_get_none (failsOn : String → Bool) (k : String) :
    ∀ (keys : List String) (v : Vault), k ∈ keys → failsOn k = false →
      vaultGet (keys.foldl (fun acc key => if failsOn key then acc else vaultDelete acc key) v) k
        = none := by
  intro keys
  induction keys with
  | nil => intro v h hf; simp at h
  | cons key rest ih =>
    intro v hk hf
    rcases List.mem_cons.mp hk with rfl | hmem
    · rw [List.foldl_cons, if_neg (by simp [hf])]
      exact clearFold_preserves_none failsOn k rest _ (vaultGet_delete_self v k)
    · rw [List.foldl_cons]
      by_cases hf2 : failsOn key = true
      · rw [if_pos hf2]; exact ih _ hmem hf
      · rw [if_neg hf2]; exact ih _ hmem hf

/-- C9, counterexample: the claim requires the surfaced error to
identify which storage keys were not cleared. Two failure scenarios
leaving different keys uncleared (the medications blob vs the symptoms
blob remains in the vault) surface the exact same error value — the
fixed string `'Failed to clear all data'` — so the surfaced error
cannot identify the uncleared keys. -/
theorem spec_C9_counterexample :
    (clearAllData (fun k => k == "mediscan_medications") c9_vault).1
      = (clearAllData (fun k => k == "mediscan_symptoms") c9_vault).1 ∧
    (clearAllData (fun k => k == "mediscan_medications") c9_vault).1
      = .error "Failed to clear all data" ∧
    vaultGet (clearAllData (fun k => k == "mediscan_medications") c9_vault).2
        "mediscan_medications" = some [0x78] ∧
    vaultGet (clearAllData (fun k => k == "mediscan_symptoms") c9_vault).2
        "mediscan_medications" = none := by
  refine ⟨by decide, by decide, by decide, by decide⟩

/-- C9, amended: `clearAll` attempts deletion of every known storage key
(the collection blobs, the user profile and the encryption key) and
every deletion whose vault operation does not fail removes its key;
when any individual deletion fails, the caller is informed of the
failure, but only by the fixed generic error
`'Failed to clear all data'`, which does not identify which storage
keys were not cleared. -/
theorem spec_C9 (failsOn : String → Bool) (v : Vault) :
    ((∃ k ∈ STORAGE_KEYS, failsOn k = true) →
      (clearAllData failsOn v).1 = .error "Failed to clear all data") ∧
    ((∀ k ∈ STORAGE_KEYS, failsOn k = false) → (clearAllData failsOn v).1 = .ok ()) ∧
    (∀ k ∈ STORAGE_KEYS, failsOn k = false → vaultGet (clearAllData failsOn v).2 k = none) := by
  refine ⟨?_, ?_, ?_⟩
  · intro ⟨k, hk, hf⟩
    have h : STORAGE_KEYS.any failsOn = true := List.any_eq_true.mpr ⟨k, hk, hf⟩
    simp [clearAllData, h]
  · intro h
    have ha : STORAGE_KEYS.any failsOn = false := by
      rw [Bool.eq_false_iff]
      intro hc
      obtain ⟨k, hk, hf⟩ := List.any_eq_true.mp hc
      rw [h k hk] at hf
      cases hf
    simp [clearAllData, ha]
  · intro k hk hf
    simpa [clearAllData] using clearFold_get_none failsOn k STORAGE_KEYS v hk hf

theorem spec_C9_witness :
    (clearAllData (fun k => k == "mediscan_symptoms") c9_vault).1
      = .error "Failed to clear all data" ∧
    (clearAllData (fun _ => false) c9_vault).1 = .ok () ∧
    vaultGet (clearAllData (fun _ => false) c9_vault).2 "mediscan_medications" = none :=
  ⟨(spec_C9 (fun k => k == "mediscan_symptoms") c9_vault).1
      ⟨"mediscan_symptoms", by decide, by decide⟩,
   (spec_C9 (fun _ => false) c9_vault).2.1 (by decide),
   (spec_C9 (fun _ => false) c9_vault).2.2 "mediscan_medications" (by decide) rfl⟩

theorem isEmpty_false_of_ne_nil {α : Type} {l : List α} (h : l ≠ []) : l.isEmpty = false := by
  cases l with
  | nil => exact absurd rfl h
  | cons a t => rfl

theorem generateEncryptionKey_ne_nil {r : List Nat} (h : r ≠ []) :
    generateEncryptionKey r ≠ [] := by
  cases r with
  | nil => exact absurd rfl h
  | cons b t => simp [generateEncryptionKey, byteHexUnits]

theorem kStep_inv {r : List Nat} (hr : r ≠ []) (p : KPhase) (v : Option (List Nat))
    (hv : ∀ k, v = some k → k ≠ []) (hg : ∀ k, p = .generated k → k ≠ [])
    (hd : p.isDone = true → v.isSome = true) :
    (∀ k, (kStep r p v).2 = some k → k ≠ []) ∧
    (∀ k, (kStep r p v).1 = .generated k → k ≠ []) ∧
    ((kStep r p v).1.isDone = true → (kStep r p v).2.isSome = true) ∧
    (v.isSome = true → (kStep r p v).2.isSome = true) := by
  cases p with
  | start =>
    cases v with
    | none => simp [kStep, KPhase.isDone]
    | some k =>
      by_cases hk : k.isEmpty = true
      · exact absurd (List.isEmpty_iff.mp hk) (hv k rfl)
      · rw [Bool.not_eq_true] at hk
        refine ⟨fun k' h => hv k' h, ?_, ?_, ?_⟩ <;> simp [kStep, hk, KPhase.isDone]
  | gotNone =>
    refine ⟨fun k' h => hv k' ?_, ?_, ?_, ?_⟩ <;>
      simp_all [kStep, KPhase.isDone, generateEncryptionKey_ne_nil hr]
  | generated k =>
    have hk : k ≠ [] := hg k rfl
    refine ⟨?_, ?_, ?_, ?_⟩ <;> simp_all [kStep, KPhase.isDone]
  | done k =>
    refine ⟨fun k' h => hv k' ?_, ?_, ?_, ?_⟩ <;> simp_all [kStep, KPhase.isDone]

theorem kRun_inv {r1 r2 : List Nat} (h1 : r1 ≠ []) (h2 : r2 ≠ []) :
    ∀ (sched : List Bool) (s : KSys), KInvFull s → KInvFull (kRun r1 r2 sched s) := by
  intro sched
  induction sched with
  | nil => intro s h; simpa [kRun] using h
  | cons b rest ih =>
    intro s h
    obtain ⟨hv, hg1, hg2, hd1, hd2⟩ := h
    cases b with
    | true =>
      have hs := kStep_inv h1 s.p1 s.slot hv hg1 hd1
      rw [kRun]
      exact ih _ ⟨hs.1, hs.2.1, fun k hk => hg2 k hk,
        hs.2.2.1, fun hdone => hs.2.2.2 (hd2 hdone)⟩
    | false =>
      have hs := kStep_inv h2 s.p2 s.slot hv hg2 hd2
      rw [kRun]
      exact ih _ ⟨hs.1, fun k hk => hg1 k hk, hs.2.1,
        fun hdone => hs.2.2.2 (hd1 hdone), hs.2.2.1⟩

/-- C3: `getEncryptionKey` is idempotent. Sequentially, a second call
returns the byte-identical key the first call returned (for any prior
slot state and any nonempty random draws). Concurrently, for every
interleaving of two first calls starting from an empty vault, once both
calls have returned the vault's key slot holds exactly one (nonempty)
key value, and every subsequent call returns exactly that stored key
without modifying it. -/
theorem spec_C3 :
    (∀ (r1 r2 : List Nat) (v : Option (List Nat)), r1 ≠ [] →
      (getEncryptionKey r2 (getEncryptionKey r1 v).2).1 = (getEncryptionKey r1 v).1) ∧
    (∀ (r1 r2 : List Nat) (sched : List Bool), r1 ≠ [] → r2 ≠ [] →
      (kRun r1 r2 sched kInit).p1.isDone = true →
      (kRun r1 r2 sched kInit).p2.isDone = true →
      ∃ k, (kRun r1 r2 sched kInit).slot = some k ∧ k ≠ [] ∧
        ∀ r3, getEncryptionKey r3 (some k) = (k, some k)) := by
  constructor
  · intro r1 r2 v h
    have hg : (generateEncryptionKey r1).isEmpty = false :=
      isEmpty_false_of_ne_nil (generateEncryptionKey_ne_nil h)
    match v with
    | none => simp [getEncryptionKey, hg]
    | some k =>
      by_cases hk : k.isEmpty = true
      · simp [getEncryptionKey, hk, hg]
      · rw [Bool.not_eq_true] at hk
        simp [getEncryptionKey, hk]
  · intro r1 r2 sched h1 h2 hd1 hd2
    have hinit : KInvFull kInit := by
      unfold KInvFull
      refine ⟨?_, ?_, ?_, ?_, ?_⟩
      · intro k h; cases h
      · intro k h; cases h
      · intro k h; cases h
      · simp [kInit, KPhase.isDone]
      · simp [kInit, KPhase.isDone]
    have hinv := kRun_inv h1 h2 sched kInit hinit
    obtain ⟨hv, _, _, hdone1, _⟩ := hinv
    obtain ⟨k, hk⟩ := Option.isSome_iff_exists.mp (hdone1 hd1)
    refine ⟨k, hk, hv k hk, fun r3 => ?_⟩
    simp [getEncryptionKey, isEmpty_false_of_ne_nil (hv k hk)]

theorem spec_C3_witness :
    ((getEncryptionKey (List.replicate 32 1) (getEncryptionKey (List.replicate 32 0) none).2).1
      = (getEncryptionKey (List.replicate 32 0) none).1) ∧
    ∃ k, (kRun (List.replicate 32 0) (List.replicate 32 1) [true, true, true, false] kInit).slot
        = some k ∧ k ≠ [] ∧ ∀ r3, getEncryptionKey r3 (some k) = (k, some k) :=
  ⟨spec_C3.1 (List.replicate 32 0) (List.replicate 32 1) none (by decide),
   spec_C3.2 (List.replicate 32 0) (List.replicate 32 1) [true, true, true, false]
     (by decide) (by decide) (by decide) (by decide)⟩

theorem count_set_of_get {α : Type} [DecidableEq α] :
    ∀ (l : List α) (i : Nat) (a b c : α), l[i]? = some a →
      (l.set i b).count c + (if a = c then 1 else 0) = l.count c + (if b = c then 1 else 0) := by
  intro l
  induction l with
  | nil => intro i a b c h; simp at h
  | cons x xs ih =>
    intro i a b c h
    cases i with
    | zero =>
      simp only [List.getElem?_cons_zero, Option.some_inj] at h
      subst h
      simp only [List.set_cons_zero, List.count_cons, beq_iff_eq]
      omega
    | succ n =>
      simp only [List.getElem?_cons_succ] at h
      have := ih n a b c h
      simp only [List.set_cons_succ, List.count_cons, beq_iff_eq]
      omega

theorem rRun_append (out : Except String String) :
    ∀ (l1 l2 : List REvent) (s : RSys),
      rRun out s (l1 ++ l2) = (rRun out s l1).bind fun s1 => rRun out s1 l2 := by
  intro l1
  induction l1 with
  | nil => intro l2 s; simp [rRun]
  | cons e rest ih =>
    intro l2 s
    simp only [List.cons_append, rRun]
    cases h : rStep out s e with
    | none => simp
    | some s1 => simp [ih]

theorem handleInv_step {out : Except String String} {v0 : Option String} {s s' : RSys} {i : Nat}
    (hinv : RefreshHandleInv v0 s) (hstep : rStep out s (.handle i) = some s') :
    RefreshHandleInv v0 s' := by
  obtain ⟨hsettled, hvault, hpend, hcalls, hcount, hmem⟩ := hinv
  cases hp : s.phases[i]? with
  | none => simp [rStep, hp] at hstep
  | some ph =>
    simp only [rStep, hp] at hstep
    cases ph with
    | pending401 =>
      by_cases hr : s.client.isRefreshing = true
      · rw [if_pos hr] at hstep
        injection hstep with hs'
        subst hs'
        refine ⟨hsettled, hvault, hpend, hcalls, ?_, ?_⟩
        · have hb := count_set_of_get s.phases i .pending401 .waiterAwait .claimerAwait hp
          have e1 : (if HPhase.pending401 = HPhase.claimerAwait then 1 else 0) = 0 := rfl
          have e2 : (if HPhase.waiterAwait = HPhase.claimerAwait then 1 else 0) = 0 := rfl
          rw [e1, e2] at hb
          simpa using hb.trans hcount
        · intro p hpmem
          rcases List.mem_or_eq_of_mem_set hpmem with hold | rfl
          · exact hmem p hold
          · exact Or.inr (Or.inr rfl)
      · rw [if_neg hr] at hstep
        injection hstep with hs'
        subst hs'
        rw [Bool.not_eq_true] at hr
        rw [hr] at hcalls
        simp only [if_neg Bool.false_ne_true] at hcalls
        refine ⟨hsettled, hvault, rfl, by simp [hcalls], ?_, ?_⟩
        · have hb := count_set_of_get s.phases i .pending401 .claimerAwait .claimerAwait hp
          have e1 : (if HPhase.pending401 = HPhase.claimerAwait then 1 else 0) = 0 := rfl
          have e2 : (if HPhase.claimerAwait = HPhase.claimerAwait then 1 else 0) = 1 := rfl
          rw [e1, e2] at hb
          simp only [Nat.add_zero] at hb
          rw [hb, hcount, hcalls]
        · intro p hpmem
          rcases List.mem_or_eq_of_mem_set hpmem with hold | rfl
          · exact hmem p hold
          · exact Or.inr (Or.inl rfl)
    | claimerAwait => simp at hstep
    | waiterAwait => simp at hstep
    | done r k => simp at hstep

theorem settle_ok {v0 : Option String} {tok : String} {s s' : RSys}
    (hinv : RefreshHandleInv v0 s) (hstep : rStep (.ok tok) s .settle = some s') :
    RefreshOkInv tok s' := by
  obtain ⟨hsettled, hvault, hpend, hcalls, hcount, hmem⟩ := hinv
  simp only [rStep] at hstep
  by_cases hc : (s.client.pending && s.settled.isNone) = true
  · simp only [if_pos hc] at hstep
    injection hstep with hs'
    subst hs'
    have hpendT : s.client.pending = true := (Bool.and_eq_true _ _ |>.mp hc).1
    have hrefr : s.client.isRefreshing = true := hpend ▸ hpendT
    refine ⟨rfl, rfl, ?_, ?_⟩
    · rw [hcalls, hrefr]
      rfl
    · intro p hp
      rcases hmem p hp with h | h | h
      · exact Or.inl h
      · exact Or.inr (Or.inl h)
      · exact Or.inr (Or.inr (Or.inl h))
  · rw [if_neg hc] at hstep
    cases hstep

theorem settle_err {v0 : Option String} {e : String} {s s' : RSys}
    (hinv : RefreshHandleInv v0 s) (hstep : rStep (.error e) s .settle = some s') :
    RefreshErrInv v0 e s' := by
  obtain ⟨hsettled, hvault, hpend, hcalls, hcount, hmem⟩ := hinv
  simp only [rStep] at hstep
  by_cases hc : (s.client.pending && s.settled.isNone) = true
  · simp only [if_pos hc] at hstep
    injection hstep with hs'
    subst hs'
    have hpendT : s.client.pending = true := (Bool.and_eq_true _ _ |>.mp hc).1
    have hrefr : s.client.isRefreshing = true := hpend ▸ hpendT
    have hcalls1 : s.client.refreshCalls = 1 := by rw [hcalls, hrefr]; rfl
    refine ⟨rfl, hcalls1, Or.inl ⟨?_, hvault⟩, ?_⟩
    · rw [hcount, hcalls1]
    · intro p hp
      rcases hmem p hp with h | h | h
      · exact Or.inl h
      · exact Or.inr (Or.inl h)
      · exact Or.inr (Or.inr (Or.inl h))
  · rw [if_neg hc] at hstep
    cases hstep

theorem okInv_resume {out : Except String String} {tok : String} {s s' : RSys} {i : Nat}
    (hinv : RefreshOkInv tok s) (hstep : rStep out s (.resume i) = some s') :
    RefreshOkInv tok s' := by
  obtain ⟨hsettled, hvault, hcalls, hmem⟩ := hinv
  cases hp : s.phases[i]? with
  | none => simp [rStep, hp] at hstep
  | some ph =>
    simp only [rStep, hp, hsettled] at hstep
    cases ph with
    | pending401 => simp at hstep
    | claimerAwait =>
      injection hstep with hs'
      subst hs'
      refine ⟨rfl, hvault, hcalls, ?_⟩
      intro p hp2
      rcases List.mem_or_eq_of_mem_set hp2 with hold | rfl
      · exact hmem p hold
      · exact Or.inr (Or.inr (Or.inr rfl))
    | waiterAwait =>
      injection hstep with hs'
      subst hs'
      refine ⟨rfl, hvault, hcalls, ?_⟩
      intro p hp2
      rcases List.mem_or_eq_of_mem_set hp2 with hold | rfl
      · exact hmem p hold
      · exact Or.inr (Or.inr (Or.inr rfl))
    | done r k => simp at hstep

theorem errInv_resume {out : Except String String} {v0 : Option String} {e : String}
    {s s' : RSys} {i : Nat}
    (hinv : RefreshErrInv v0 e s) (hstep : rStep out s (.resume i) = some s') :
    RefreshErrInv v0 e s' := by
  obtain ⟨hsettled, hcalls, hdis, hmem⟩ := hinv
  cases hp : s.phases[i]? with
  | none => simp [rStep, hp] at hstep
  | some ph =>
    simp only [rStep, hp, hsettled] at hstep
    cases ph with
    | pending401 => simp at hstep
    | claimerAwait =>
      injection hstep with hs'
      subst hs'
      have hb := count_set_of_get s.phases i .claimerAwait (.done (.error e) 0) .claimerAwait hp
      have e1 : (if HPhase.claimerAwait = HPhase.claimerAwait then 1 else 0) = 1 := rfl
      have e2 : (if HPhase.done (.error e) 0 = HPhase.claimerAwait then 1 else 0) = 0 := rfl
      rw [e1, e2] at hb
      rcases hdis with ⟨hc1, hv⟩ | ⟨hc0, hv⟩
      · refine ⟨rfl, hcalls, Or.inr ⟨show (s.phases.set i (HPhase.done (Except.error e) 0)).count
            HPhase.claimerAwait = 0 by omega, rfl⟩, ?_⟩
        intro p hp2
        rcases List.mem_or_eq_of_mem_set hp2 with hold | rfl
        · exact hmem p hold
        · exact Or.inr (Or.inr (Or.inr rfl))
      · exfalso
        have hmemc : HPhase.claimerAwait ∈ s.phases := List.getElem?_mem hp
        rw [← List.count_pos_iff] at hmemc
        omega
    | waiterAwait =>
      injection hstep with hs'
      subst hs'
      have hb := count_set_of_get s.phases i .waiterAwait (.done (.error e) 0) .claimerAwait hp
      have e1 : (if HPhase.waiterAwait = HPhase.claimerAwait then 1 else 0) = 0 := rfl
      have e2 : (if HPhase.done (.error e) 0 = HPhase.claimerAwait then 1 else 0) = 0 := rfl
      rw [e1, e2] at hb
      refine ⟨rfl, hcalls, ?_, ?_⟩
      · rcases hdis with ⟨hc1, hv⟩ | ⟨hc0, hv⟩
        · exact Or.inl ⟨show (s.phases.set i (HPhase.done (Except.error e) 0)).count
            HPhase.claimerAwait = 1 by omega, hv⟩
        · exact Or.inr ⟨show (s.phases.set i (HPhase.done (Except.error e) 0)).count
            HPhase.claimerAwait = 0 by omega, hv⟩
      · intro p hp2
        rcases List.mem_or_eq_of_mem_set hp2 with hold | rfl
        · exact hmem p hold
        · exact Or.inr (Or.inr (Or.inr rfl))
    | done r k => simp at hstep

theorem run_handles {out : Except String String} {v0 : Option String} :
    ∀ (es : List REvent) (s s' : RSys), (∀ e ∈ es, e.isHandle = true) →
      RefreshHandleInv v0 s → rRun out s es = some s' → RefreshHandleInv v0 s' := by
  intro es
  induction es with
  | nil =>
    intro s s' _ hinv hrun
    rw [rRun] at hrun
    injection hrun with h
    subst h
    exact hinv
  | cons ev rest ih =>
    intro s s' hall hinv hrun
    rw [rRun] at hrun
    cases hst : rStep out s ev with
    | none => rw [hst] at hrun; simp at hrun
    | some s1 =>
      rw [hst] at hrun
      simp only [Option.some_bind] at hrun
      have hev := hall ev (List.mem_cons_self ev rest)
      cases ev with
      | handle i =>
        exact ih s1 s' (fun e he => hall e (List.mem_cons_of_mem _ he))
          (handleInv_step hinv hst) hrun
      | settle => simp [REvent.isHandle] at hev
      | resume i => simp [REvent.isHandle] at hev

theorem run_resumes {out : Except String String} {P : RSys → Prop}
    (hpres : ∀ {s s' : RSys} {i : Nat}, P s → rStep out s (.resume i) = some s' → P s') :
    ∀ (es : List REvent) (s s' : RSys), (∀ e ∈ es, e.isResume = true) →
      P s → rRun out s es = some s' → P s' := by
  intro es
  induction es with
  | nil =>
    intro s s' _ hinv hrun
    rw [rRun] at hrun
    injection hrun with h
    subst h
    exact hinv
  | cons ev rest ih =>
    intro s s' hall hinv hrun
    rw [rRun] at hrun
    cases hst : rStep out s ev with
    | none => rw [hst] at hrun; simp at hrun
    | some s1 =>
      rw [hst] at hrun
      simp only [Option.some_bind] at hrun
      have hev := hall ev (List.mem_cons_self ev rest)
      cases ev with
      | handle i => simp [REvent.isResume] at hev
      | settle => simp [REvent.isResume] at hev
      | resume i =>
        exact ih s1 s' (fun e he => hall e (List.mem_cons_of_mem _ he)) (hpres hinv hst) hrun

theorem rInit_handleInv (n : Nat) (v0 : Option String) :
    RefreshHandleInv v0 (rInit n v0) := by
  refine ⟨rfl, rfl, rfl, rfl, ?_, ?_⟩
  · show (List.replicate n HPhase.pending401).count HPhase.claimerAwait = 0
    rw [List.count_replicate]
    rfl
  · intro p hp
    exact Or.inl (List.eq_of_mem_replicate hp)

/-- C1: single-flight refresh. For `n ≥ 2` logically concurrent
requests that each receive a 401 while no refresh is in progress
(`rInit`: all handlers pending, flag clear), for EVERY schedule in
which the handlers process their 401s before the shared refresh
resolves (`hs`, in any order) and then the suspended handlers resume
(`rs`, in any order), if every handler has returned then the
token-refresh operation was invoked exactly once
(`refreshCalls = 1` — all handlers but the claimer awaited the shared
pending outcome instead of starting their own refresh), and every
request was retried exactly once — hence at most once — after the
shared refresh resolved. -/
theorem spec_C1 (n : Nat) (hn : 2 ≤ n) (v0 : Option String) (tok : String)
    (hs rs : List REvent) (final : RSys)
    (hhs : ∀ e ∈ hs, e.isHandle = true) (hrs : ∀ e ∈ rs, e.isResume = true)
    (hrun : rRun (.ok tok) (rInit n v0) (hs ++ .settle :: rs) = some final)
    (hdone : ∀ p ∈ final.phases, p.isDone = true) :
    final.client.refreshCalls = 1 ∧ ∀ p ∈ final.phases, p = .done (.ok tok) 1 := by
  rw [rRun_append] at hrun
  cases h1 : rRun (.ok tok) (rInit n v0) hs with
  | none => rw [h1] at hrun; simp at hrun
  | some s1 =>
    rw [h1] at hrun
    simp only [Option.some_bind] at hrun
    rw [rRun] at hrun
    cases h2 : rStep (.ok tok) s1 .settle with
    | none => rw [h2] at hrun; simp at hrun
    | some s2 =>
      rw [h2] at hrun
      simp only [Option.some_bind] at hrun
      have hinv1 := run_handles hs (rInit n v0) s1 hhs (rInit_handleInv n v0) h1
      have hinv2 := settle_ok hinv1 h2
      have hinvF := run_resumes (fun ha hb => okInv_resume ha hb) rs s2 final hrs hinv2 hrun
      obtain ⟨hsettled, hvault, hcalls, hmem⟩ := hinvF
      refine ⟨hcalls, fun p hp => ?_⟩
      rcases hmem p hp with h | h | h | h
      · have hd := hdone p hp; rw [h] at hd; cases hd
      · have hd := hdone p hp; rw [h] at hd; cases hd
      · have hd := hdone p hp; rw [h] at hd; cases hd
      · exact h

theorem spec_C1_witness :
    (rRun (.ok "t") (rInit 2 (some "old"))
        ([REvent.handle 0, REvent.handle 1] ++ REvent.settle :: [REvent.resume 0, REvent.resume 1]))
      = some ⟨⟨false, false, 1, some "t"⟩, some (.ok "t"),
          [.done (.ok "t") 1, .done (.ok "t") 1]⟩ ∧
    (⟨⟨false, false, 1, some "t"⟩, some (.ok "t"),
        [.done (.ok "t") 1, .done (.ok "t") 1]⟩ : RSys).client.refreshCalls = 1 ∧
    ∀ p ∈ (⟨⟨false, false, 1, some "t"⟩, some (.ok "t"),
        [.done (.ok "t") 1, .done (.ok "t") 1]⟩ : RSys).phases, p = .done (.ok "t") 1 :=
  ⟨by decide,
   spec_C1 2 (by omega) (some "old") "t" [.handle 0, .handle 1] [.resume 0, .resume 1]
     ⟨⟨false, false, 1, some "t"⟩, some (.ok "t"), [.done (.ok "t") 1, .done (.ok "t") 1]⟩
     (by decide) (by decide) (by decide) (by decide)⟩

/-- C7: failed refresh. In the same concurrent-401 scenario, when the
shared refresh settles with failure `e`, once every handler has
returned the client has cleared the stored auth token from the vault
(the claimer awaited `logout()`), and every request that was waiting on
that refresh — claimer and waiters alike — propagated that same
refresh failure to its caller (result `error e`, no retry). -/
theorem spec_C7 (n : Nat) (hn : 2 ≤ n) (v0 : Option String) (e : String)
    (hs rs : List REvent) (final : RSys)
    (hhs : ∀ ev ∈ hs, ev.isHandle = true) (hrs : ∀ ev ∈ rs, ev.isResume = true)
    (hrun : rRun (.error e) (rInit n v0) (hs ++ .settle :: rs) = some final)
    (hdone : ∀ p ∈ final.phases, p.isDone = true) :
    final.client.vaultToken = none ∧ ∀ p ∈ final.phases, p = .done (.error e) 0 := by
  rw [rRun_append] at hrun
  cases h1 : rRun (.error e) (rInit n v0) hs with
  | none => rw [h1] at hrun; simp at hrun
  | some s1 =>
    rw [h1] at hrun
    simp only [Option.some_bind] at hrun
    rw [rRun] at hrun
    cases h2 : rStep (.error e) s1 .settle with
    | none => rw [h2] at hrun; simp at hrun
    | some s2 =>
      rw [h2] at hrun
      simp only [Option.some_bind] at hrun
      have hinv1 := run_handles hs (rInit n v0) s1 hhs (rInit_handleInv n v0) h1
      have hinv2 := settle_err hinv1 h2
      have hinvF := run_resumes (fun ha hb => errInv_resume ha hb) rs s2 final hrs hinv2 hrun
      obtain ⟨hsettled, hcalls, hdis, hmem⟩ := hinvF
      have hall : ∀ p ∈ final.phases, p = .done (.error e) 0 := by
        intro p hp
        rcases hmem p hp with h | h | h | h
        · have hd := hdone p hp; rw [h] at hd; cases hd
        · have hd := hdone p hp; rw [h] at hd; cases hd
        · have hd := hdone p hp; rw [h] at hd; cases hd
        · exact h
      refine ⟨?_, hall⟩
      rcases hdis with ⟨hc1, hv⟩ | ⟨hc0, hv⟩
      · exfalso
        have hcpos : 0 < final.phases.count HPhase.claimerAwait := by omega
        rw [List.count_pos_iff] at hcpos
        have := hall _ hcpos
        cases this
      · exact hv

theorem spec_C7_witness :
    (rRun (.error "boom") (rInit 2 (some "old"))
        ([REvent.handle 0, REvent.handle 1]
          ++ REvent.settle :: [REvent.resume 1, REvent.resume 0]))
      = some ⟨⟨false, false, 1, none⟩, some (.error "boom"),
          [.done (.error "boom") 0, .done (.error "boom") 0]⟩ ∧
    (⟨⟨false, false, 1, none⟩, some (.error "boom"),
        [.done (.error "boom") 0, .done (.error "boom") 0]⟩ : RSys).client.vaultToken = none ∧
    ∀ p ∈ (⟨⟨false, false, 1, none⟩, some (.error "boom"),
        [.done (.error "boom") 0, .done (.error "boom") 0]⟩ : RSys).phases,
      p = .done (.error "boom") 0 :=
  ⟨by decide,
   spec_C7 2 (by omega) (some "old") "boom" [.handle 0, .handle 1] [.resume 1, .resume 0]
     ⟨⟨false, false, 1, none⟩, some (.error "boom"),
       [.done (.error "boom") 0, .done (.error "boom") 0]⟩
     (by decide) (by decide) (by decide) (by decide)⟩
